import Mathlib

/-!
Shallow embedding of the SessionCam session/media store and its UI-driven
reorder, flag-workflow, trim-save and merge-playback logic.

Sources embedded:
  * src/services/db.ts        — the IndexedDB store engine (sessions, media)
  * src/services/preferences.ts — the suppress-flag-prompt preference
  * src/unnamed/part_002      — CameraView (flag workflow, saveMedia) and
                                SessionDetail (drag reorder, merge sequencer)
  * src/components/TrimView.tsx — performSave
  * src/unnamed/part_003      — the Session / MediaItem record types

Modelling choices:
  * An IndexedDB object store keyed by `id` is a `List` of records together
    with the well-formedness fact that the keys are pairwise distinct
    (IndexedDB cannot hold two records with the same key).  `put` replaces
    the record with the matching key, or appends when the key is absent;
    `add` fails on a present key (the request error aborts the transaction).
  * Each exported async function of db.ts is one IndexedDB transaction and
    is embedded as one pure function on the whole store state; `Date.now()`
    becomes an explicit `now : Nat` argument (milliseconds).
  * Durations and playback positions are rationals (seconds).
  * Blob payloads are opaque and modelled as `Nat` tokens.
  * `localStorage` is a list of key/value string pairs.
-/

namespace SessionCam

inductive MediaType where
  | photo
  | video
deriving DecidableEq

/-- Normalized crop rectangle, from the `crop` field of `MediaItem`. -/
structure CropRect where
  x : ℚ
  y : ℚ
  width : ℚ
  height : ℚ
deriving DecidableEq

/-- `Session` record (src/unnamed/part_003). -/
structure Session where
  id : String
  name : String
  createdAt : Nat
  lastModified : Nat
  thumbnailUrl : Option String := none
  itemCount : Nat
deriving DecidableEq

/-- `MediaItem` record (src/unnamed/part_003); `blob` is an opaque token. -/
structure MediaItem where
  id : String
  sessionId : String
  type : MediaType
  blob : Nat
  createdAt : Nat
  duration : Option ℚ := none
  trimNeeded : Option Bool := none
  trimEndTime : Option ℚ := none
  order : Nat
  crop : Option CropRect := none
deriving DecidableEq

/-- The two object stores of SessionCamDB (STORE_SESSIONS, STORE_MEDIA). -/
structure DBState where
  sessions : List Session
  media : List MediaItem
deriving DecidableEq

/-- Failure taxonomy.  `duplicateKey` is the only failure the embedded code
can actually raise (an IndexedDB `add` on an existing key aborts the
transaction); `notFound` and `validationError` are the spec's taxonomy and
are needed to state its error-handling claims. -/
inductive DBError where
  | duplicateKey
  | notFound
  | validationError
deriving DecidableEq

/-- IndexedDB `put` on a store keyed by `key`: replace the record with the
matching key if present, otherwise append. -/
def putKeyed {α : Type} (key : α → String) (l : List α) (x : α) : List α :=
  if l.any (fun y => key y = key x) then
    l.map (fun y => if key y = key x then x else y)
  else
    l ++ [x]

/-- Keys are pairwise distinct, as IndexedDB guarantees for an object store. -/
@[reducible] def KeysNodup {α : Type} (key : α → String) (l : List α) : Prop :=
  (l.map key).Nodup

/-- Well-formed database: both object stores have distinct keys. -/
@[reducible] def DBState.WF (st : DBState) : Prop :=
  KeysNodup Session.id st.sessions ∧ KeysNodup MediaItem.id st.media

/-- Comparator of `getSessions` (db.ts: sort by `lastModified` desc). -/
def sessionLE (a b : Session) : Bool :=
  b.lastModified ≤ a.lastModified

/-- `getSessions` (db.ts): all sessions sorted by `lastModified` descending. -/
def getSessions (st : DBState) : List Session :=
  st.sessions.mergeSort sessionLE

/-- `deleteSession` (db.ts): one readwrite transaction over both stores that
deletes the session record with key `id` and every media record whose
`sessionId` index value equals `id`. -/
def deleteSession (st : DBState) (id : String) : DBState :=
  { sessions := st.sessions.filter (fun s => ¬ s.id = id),
    media := st.media.filter (fun m => ¬ m.sessionId = id) }

/-- `addMediaItem` (db.ts): in one transaction, count the media records with
this `sessionId`, set `item.order` to that count, `add` the item (failing if
its key already exists), and — only when the session record exists — bump its
`itemCount` and set `lastModified = Date.now()`. -/
def addMediaItem (st : DBState) (item : MediaItem) (now : Nat) :
    Except DBError DBState :=
  if st.media.any (fun y => y.id = item.id) then
    .error .duplicateKey
  else
    let count := (st.media.filter (fun m => m.sessionId = item.sessionId)).length
    let sessions' :=
      match st.sessions.find? (fun s => s.id = item.sessionId) with
      | some s =>
          putKeyed Session.id st.sessions
            { s with itemCount := s.itemCount + 1, lastModified := now }
      | none => st.sessions
    .ok { sessions := sessions',
          media := st.media ++ [{ item with order := count }] }

/-- Comparator of `getMediaForSession` (db.ts):
`(a.order ?? 0) - (b.order ?? 0) || a.createdAt - b.createdAt`. -/
def mediaLE (a b : MediaItem) : Bool :=
  a.order < b.order || (a.order = b.order && a.createdAt ≤ b.createdAt)

/-- `getMediaForSession` (db.ts): the media records with this `sessionId`,
sorted by `order` ascending with ties broken by `createdAt` ascending. -/
def getMediaForSession (st : DBState) (sessionId : String) : List MediaItem :=
  (st.media.filter (fun m => m.sessionId = sessionId)).mergeSort mediaLE

/-- `getMediaItem` (db.ts): lookup by key. -/
def getMediaItem (st : DBState) (id : String) : Option MediaItem :=
  st.media.find? (fun m => m.id = id)

/-- `updateMediaItem` (db.ts): `put` the item and, when the owning session
record exists, set its `lastModified = Date.now()`. -/
def updateMediaItem (st : DBState) (item : MediaItem) (now : Nat) : DBState :=
  { sessions :=
      match st.sessions.find? (fun s => s.id = item.sessionId) with
      | some s => putKeyed Session.id st.sessions { s with lastModified := now }
      | none => st.sessions,
    media := putKeyed MediaItem.id st.media item }

/-- `updateMediaItems` (db.ts): one readwrite transaction on the media store
alone that `put`s every given item; it touches no session record and performs
no validation of any kind. -/
def updateMediaItems (st : DBState) (items : List MediaItem) :
    Except DBError DBState :=
  .ok { st with media := items.foldl (putKeyed MediaItem.id) st.media }

/-- The update list built by `handleDragEnd` (SessionDetail,
src/unnamed/part_002): `media.map((item, index) => ({...item, order: index}))`. -/
def enumReorder (media : List MediaItem) : List MediaItem :=
  media.enum.map (fun p => { p.2 with order := p.1 })

/-- `handleDragEnd` (SessionDetail, src/unnamed/part_002): persist the
drag-reordered UI list `media` by writing `order := index` over the full
list and `put`ting every item. -/
def handleDragEnd (st : DBState) (media : List MediaItem) :
    Except DBError DBState :=
  updateMediaItems st (enumReorder media)

/-- The `localStorage` collaborator: a list of key/value string pairs. -/
def LocalStorage : Type := List (String × String)

/-- KEY_SKIP_FLAG_PROMPT (src/services/preferences.ts). -/
def KEY_SKIP_FLAG_PROMPT : String := "sessioncam_skip_flag_prompt"

/-- `Preferences.getShouldSkipFlagPrompt` (src/services/preferences.ts):
`localStorage.getItem(KEY) === "true"`. -/
def getShouldSkipFlagPrompt (ls : LocalStorage) : Bool :=
  (List.lookup KEY_SKIP_FLAG_PROMPT ls).getD "" = "true"

/-- The `MediaItem` record built inside `saveMedia` (CameraView,
src/unnamed/part_002): `duration` is the recording timer for videos and 0
for photos, `trimNeeded` is the `flagged` argument, `order` starts at 0 and
is overwritten inside `addMediaItem`. -/
def builtMediaItem (sessionId id : String) (blob : Nat) (ty : MediaType)
    (flagged : Bool) (recordingTime : ℚ) (now : Nat) : MediaItem :=
  { id := id, sessionId := sessionId, type := ty, blob := blob,
    createdAt := now,
    duration := some (if ty = MediaType.video then recordingTime else 0),
    trimNeeded := some flagged, trimEndTime := none, order := 0,
    crop := none }

/-- `saveMedia` (CameraView, src/unnamed/part_002): build the `MediaItem`
record and `addMediaItem` it; on failure the store is untouched and `null`
is returned instead of the new id. -/
def saveMedia (st : DBState) (sessionId id : String) (blob : Nat)
    (ty : MediaType) (flagged : Bool) (recordingTime : ℚ) (now : Nat) :
    DBState × Option String :=
  match addMediaItem st
      (builtMediaItem sessionId id blob ty flagged recordingTime now) now with
  | .ok st' => (st', some id)
  | .error _ => (st, none)

/-- Outcome of `handleFlaggedWorkflow`: the resulting store, whether the
flag modal (`showFlagModal`, the spec's `PromptPending` state) was entered,
and the blob parked for the modal (`pendingFlaggedBlob`). -/
structure FlagOutcome where
  db : DBState
  showFlagModal : Bool
  pendingFlaggedBlob : Option Nat
deriving DecidableEq

/-- `handleFlaggedWorkflow` (CameraView, src/unnamed/part_002): if the
suppress-flag-prompt preference is set, persist immediately with
`flagged = true`; otherwise park the blob and open the flag modal. -/
def handleFlaggedWorkflow (ls : LocalStorage) (st : DBState)
    (sessionId id : String) (blob : Nat) (recordingTime : ℚ) (now : Nat) :
    FlagOutcome :=
  if getShouldSkipFlagPrompt ls then
    { db := (saveMedia st sessionId id blob MediaType.video true
        recordingTime now).1,
      showFlagModal := false, pendingFlaggedBlob := none }
  else
    { db := st, showFlagModal := true, pendingFlaggedBlob := some blob }

/-- `performSave` (src/components/TrimView.tsx): overwrite the edited item
with `trimNeeded = false`, `trimEndTime = endTime`, `duration = endTime`,
`crop = crop` and persist it through `updateMediaItem`. -/
def performSave (st : DBState) (item : MediaItem) (endTime : ℚ)
    (crop : CropRect) (now : Nat) : DBState :=
  updateMediaItem st
    { item with trimNeeded := some false, trimEndTime := some endTime,
                duration := some endTime, crop := some crop } now

/-- State of the merge/sequence player (SessionDetail): the filtered video
queue, the current index, and the `isMerging` flag (false = `Done`). -/
structure MergeState where
  mergeQueue : List MediaItem
  currentMergeIndex : Nat
  isMerging : Bool
deriving DecidableEq

/-- `playNextInQueue` (SessionDetail): advance to the next clip, or end the
merge preview (`isMerging := false`) after the last clip. -/
def playNextInQueue (s : MergeState) : MergeState :=
  if s.currentMergeIndex < s.mergeQueue.length - 1 then
    { s with currentMergeIndex := s.currentMergeIndex + 1 }
  else
    { s with isMerging := false }

/-- `handleMergeTimeUpdate` (SessionDetail): on a playback position update
`t`, advance iff the current clip has a truthy `trimEndTime` (present and
nonzero, by JS truthiness) and `t` has reached it. -/
def handleMergeTimeUpdate (s : MergeState) (t : ℚ) : MergeState :=
  match s.mergeQueue.get? s.currentMergeIndex with
  | some currentItem =>
      match currentItem.trimEndTime with
      | some e => if ¬ e = 0 ∧ e ≤ t then playNextInQueue s else s
      | none => s
  | none => s

/-- Events delivered by the playback surface to the merge player: a
position update (`onTimeUpdate`) or natural end of the media (`onEnded`). -/
inductive MergeEvent where
  | timeUpdate (t : ℚ)
  | ended
deriving DecidableEq

/-- One step of the merge player: `onTimeUpdate` runs
`handleMergeTimeUpdate`, `onEnded` runs `playNextInQueue`. -/
def mergeStep (s : MergeState) (ev : MergeEvent) : MergeState :=
  match ev with
  | .timeUpdate t => handleMergeTimeUpdate s t
  | .ended => playNextInQueue s

/-- The initial React state of the merge player: empty queue, index 0, not
merging. -/
def initialMergeState : MergeState :=
  { mergeQueue := [], currentMergeIndex := 0, isMerging := false }

/-- `handleMerge` (SessionDetail): start the merge preview over the video
clips of the session, in their displayed order; with no video clips the
source alerts and returns early, leaving the merge state untouched. -/
def handleMerge (s : MergeState) (media : List MediaItem) : MergeState :=
  let videos := media.filter (fun m => m.type = MediaType.video)
  if videos.length = 0 then s
  else { mergeQueue := videos, currentMergeIndex := 0, isMerging := true }

/-! ## Store lemmas: `put`, `find?` and fold-of-`put` characterizations -/

section StoreLemmas

variable {α : Type} (key : α → String)

/-- The record that a batch of `put`s leaves under `x`'s key: the batch
element with that key if there is one, else `x` itself. -/
def replOfKeyed (u : List α) (x : α) : α :=
  ((u.find? (fun y => key y = key x)).getD x)

theorem key_replOfKeyed (u : List α) (x : α) :
    key (replOfKeyed key u x) = key x := by
  unfold replOfKeyed
  cases hf : u.find? (fun y => key y = key x) with
  | none => rfl
  | some z =>
      have hz := List.find?_some hf
      simp only [decide_eq_true_eq] at hz
      simpa using hz

theorem replOfKeyed_eq_self_of_not_mem {u : List α} {x : α}
    (h : ∀ y ∈ u, ¬ key y = key x) : replOfKeyed key u x = x := by
  unfold replOfKeyed
  rw [List.find?_eq_none.mpr]
  · rfl
  · intro y hy
    simpa using h y hy

theorem find?_map_update_self (l : List α) (x : α)
    (h : ∃ z ∈ l, key z = key x) :
    (l.map (fun y => if key y = key x then x else y)).find?
      (fun y => key y = key x) = some x := by
  induction l with
  | nil => simp at h
  | cons a l ih =>
      by_cases ha : key a = key x
      · rw [List.map_cons, if_pos ha, List.find?_cons_of_pos _ (by simp)]
      · obtain ⟨z, hz, hzx⟩ := h
        rcases List.mem_cons.mp hz with rfl | hz
        · exact absurd hzx ha
        · rw [List.map_cons, if_neg ha, List.find?_cons_of_neg _ (by simpa using ha)]
          exact ih ⟨z, hz, hzx⟩

theorem find?_map_update_ne (l : List α) (x : α) {k : String}
    (hk : ¬ k = key x) :
    (l.map (fun y => if key y = key x then x else y)).find?
      (fun y => key y = k) = l.find? (fun y => key y = k) := by
  induction l with
  | nil => rfl
  | cons a l ih =>
      by_cases ha : key a = key x
      · rw [List.map_cons, if_pos ha,
            List.find?_cons_of_neg _ (by
              simp only [decide_eq_true_eq]
              exact fun h => hk h.symm),
            List.find?_cons_of_neg _ (by
              simp only [decide_eq_true_eq]
              exact fun h => hk (h.symm.trans ha))]
        exact ih
      · rw [List.map_cons, if_neg ha]
        by_cases hpa : key a = k
        · rw [List.find?_cons_of_pos _ (by simpa using hpa),
              List.find?_cons_of_pos _ (by simpa using hpa)]
        · rw [List.find?_cons_of_neg _ (by simpa using hpa),
              List.find?_cons_of_neg _ (by simpa using hpa)]
          exact ih

theorem find?_putKeyed_self (l : List α) (x : α) :
    (putKeyed key l x).find? (fun y => key y = key x) = some x := by
  unfold putKeyed
  split
  · rename_i h
    rw [List.any_eq_true] at h
    obtain ⟨z, hz, hzx⟩ := h
    exact find?_map_update_self key l x ⟨z, hz, by simpa using hzx⟩
  · rename_i h
    have hnone : l.find? (fun y => key y = key x) = none := by
      rw [List.find?_eq_none]
      intro y hy
      simp only [decide_eq_true_eq]
      intro hxy
      exact h (List.any_eq_true.mpr ⟨y, hy, by simp [hxy]⟩)
    rw [List.find?_append, hnone, Option.none_or,
        List.find?_cons_of_pos _ (by simp)]

theorem find?_putKeyed_ne (l : List α) (x : α) {k : String}
    (hk : ¬ k = key x) :
    (putKeyed key l x).find? (fun y => key y = k)
      = l.find? (fun y => key y = k) := by
  unfold putKeyed
  split
  · exact find?_map_update_ne key l x hk
  · rw [List.find?_append,
        List.find?_cons_of_neg _ (by
          simp only [decide_eq_true_eq]
          exact fun h => hk h.symm),
        List.find?_nil, Option.or_none]

theorem find?_foldl_putKeyed_of_not_mem (u : List α) : ∀ (l : List α) {k : String},
    (∀ y ∈ u, ¬ key y = k) →
    (u.foldl (putKeyed key) l).find? (fun y => key y = k)
      = l.find? (fun y => key y = k) := by
  induction u with
  | nil => intro l k _; rfl
  | cons y u ih =>
      intro l k hk
      rw [List.foldl_cons, ih _ (fun z hz => hk z (List.mem_cons_of_mem _ hz)),
          find?_putKeyed_ne key l y (fun h => hk y (List.mem_cons_self _ _) h.symm)]

theorem find?_foldl_putKeyed_self (u : List α) : ∀ (l : List α) {x : α},
    (u.map key).Nodup → x ∈ u →
    (u.foldl (putKeyed key) l).find? (fun y => key y = key x) = some x := by
  induction u with
  | nil => intro l x _ hx; cases hx
  | cons y u ih =>
      intro l x hnod hx
      rw [List.map_cons, List.nodup_cons] at hnod
      rw [List.foldl_cons]
      rcases List.mem_cons.mp hx with rfl | hx
      · rw [find?_foldl_putKeyed_of_not_mem key u _
              (fun z hz he => hnod.1 (by rw [← he]; exact List.mem_map_of_mem key hz)),
            find?_putKeyed_self]
      · exact ih _ hnod.2 hx

theorem foldl_putKeyed_eq_map (u : List α) : ∀ (l : List α),
    (u.map key).Nodup → (∀ y ∈ u, ∃ x ∈ l, key x = key y) →
    u.foldl (putKeyed key) l = l.map (replOfKeyed key u) := by
  induction u with
  | nil =>
      intro l _ _
      simp only [List.foldl_nil]
      conv_lhs => rw [← List.map_id l]
      apply List.map_congr_left
      intro a _
      exact (replOfKeyed_eq_self_of_not_mem key
        (fun y hy => absurd hy (List.not_mem_nil y))).symm
  | cons y u ih =>
      intro l hnod hsub
      rw [List.map_cons, List.nodup_cons] at hnod
      rw [List.foldl_cons]
      have hy : l.any (fun z => key z = key y) = true := by
        rw [List.any_eq_true]
        obtain ⟨x, hx, hkx⟩ := hsub y (List.mem_cons_self _ _)
        exact ⟨x, hx, by simpa using hkx⟩
      have hput : putKeyed key l y
          = l.map (fun z => if key z = key y then y else z) := by
        unfold putKeyed
        rw [if_pos hy]
      rw [hput]
      have hsub' : ∀ z ∈ u, ∃ x ∈ l.map (fun w => if key w = key y then y else w),
          key x = key z := by
        intro z hz
        obtain ⟨x, hx, hkx⟩ := hsub z (List.mem_cons_of_mem _ hz)
        refine ⟨if key x = key y then y else x, List.mem_map_of_mem _ hx, ?_⟩
        by_cases hxy : key x = key y
        · rw [if_pos hxy, ← hxy, hkx]
        · rw [if_neg hxy, hkx]
      rw [ih _ hnod.2 hsub', List.map_map]
      apply List.map_congr_left
      intro a _
      simp only [Function.comp]
      by_cases ha : key a = key y
      · rw [if_pos ha,
            replOfKeyed_eq_self_of_not_mem key
              (fun z hz he => hnod.1 (by rw [← he]; exact List.mem_map_of_mem key hz))]
        unfold replOfKeyed
        rw [List.find?_cons_of_pos _ (by simpa using ha.symm)]
        rfl
      · rw [if_neg ha]
        unfold replOfKeyed
        rw [List.find?_cons_of_neg _ (by
          simp only [decide_eq_true_eq]
          exact fun h => ha h.symm)]

theorem find?_erase_of_neg {α : Type} [DecidableEq α] {p : α → Bool} {a : α} :
    ∀ (l : List α), ¬ p a = true → (l.erase a).find? p = l.find? p := by
  intro l ha
  induction l with
  | nil => rfl
  | cons b l ih =>
      by_cases hb : b = a
      · subst hb
        rw [List.erase_cons_head, List.find?_cons_of_neg _ ha]
      · rw [List.erase_cons_tail (by simpa using hb)]
        by_cases hp : p b = true
        · rw [List.find?_cons_of_pos _ hp, List.find?_cons_of_pos _ hp]
        · rw [List.find?_cons_of_neg _ hp, List.find?_cons_of_neg _ hp, ih]

theorem map_replOfKeyed_perm {α : Type} [DecidableEq α] (key : α → String) :
    ∀ (v u : List α), (v.map key).Nodup → (u.map key).Nodup →
    (v.map key).Perm (u.map key) → (v.map (replOfKeyed key u)).Perm u := by
  intro v
  induction v with
  | nil =>
      intro u _ _ hperm
      have hu : u.map key = [] := hperm.symm.eq_nil
      rw [List.map_eq_nil_iff] at hu
      subst hu
      exact List.Perm.refl _
  | cons x v ih =>
      intro u hv hu hperm
      rw [List.map_cons, List.nodup_cons] at hv
      have hxmem : key x ∈ u.map key := by
        apply hperm.mem_iff.mp
        rw [List.map_cons]
        exact List.mem_cons_self _ _
      have hsome : ∃ w, u.find? (fun y => key y = key x) = some w := by
        obtain ⟨z, hz, hzk⟩ := List.mem_map.mp hxmem
        have hi : (u.find? (fun y => key y = key x)).isSome = true :=
          List.find?_isSome.mpr ⟨z, hz, by simp [hzk]⟩
        cases hf : u.find? (fun y => key y = key x) with
        | none => rw [hf] at hi; cases hi
        | some w => exact ⟨w, rfl⟩
      obtain ⟨w, hw⟩ := hsome
      have hwmem : w ∈ u := List.mem_of_find?_eq_some hw
      have hwk : key w = key x := by
        have := List.find?_some hw
        simpa using this
      have hmapcons : (x :: v).map (replOfKeyed key u)
          = w :: v.map (replOfKeyed key u) := by
        rw [List.map_cons]
        congr 1
        unfold replOfKeyed
        rw [hw]
        rfl
      rw [hmapcons]
      have hue : u.Perm (w :: u.erase w) := List.perm_cons_erase hwmem
      have hvmap : v.map (replOfKeyed key u)
          = v.map (replOfKeyed key (u.erase w)) := by
        apply List.map_congr_left
        intro a ha
        have hka : ¬ key a = key x := fun he =>
          hv.1 (by rw [← he]; exact List.mem_map_of_mem key ha)
        unfold replOfKeyed
        rw [find?_erase_of_neg u (by
          simp only [decide_eq_true_eq]
          exact fun h => hka (h.symm.trans hwk))]
      rw [hvmap]
      refine List.Perm.trans (List.Perm.cons w ?_) hue.symm
      apply ih
      · exact hv.2
      · exact List.Nodup.sublist (List.Sublist.map key (List.erase_sublist w u)) hu
      · have h1 : (u.map key).Perm (key w :: (u.erase w).map key) := by
          have := hue.map key
          simpa using this
        have h2 : ((x :: v).map key).Perm (key w :: (u.erase w).map key) :=
          hperm.trans h1
        rw [List.map_cons, hwk] at h2
        exact h2.cons_inv

end StoreLemmas

/-! ## Facts about the media comparator and sortedness -/

theorem mediaLE_trans (a b c : MediaItem)
    (hab : mediaLE a b = true) (hbc : mediaLE b c = true) :
    mediaLE a c = true := by
  simp only [mediaLE, Bool.or_eq_true, Bool.and_eq_true, decide_eq_true_eq]
    at hab hbc ⊢
  omega

theorem mediaLE_total (a b : MediaItem) :
    (mediaLE a b || mediaLE b a) = true := by
  simp only [mediaLE, Bool.or_eq_true, Bool.and_eq_true, decide_eq_true_eq]
  omega

theorem mediaLE_antisymm_order (a b : MediaItem)
    (hab : mediaLE a b = true) (hba : mediaLE b a = true) :
    a.order = b.order := by
  simp only [mediaLE, Bool.or_eq_true, Bool.and_eq_true, decide_eq_true_eq]
    at hab hba
  omega

/-- Two sorted lists that are permutations of one another coincide, provided
one of them carries pairwise-distinct `order` values. -/
theorem sorted_perm_eq_of_orders_nodup :
    ∀ (l l' : List MediaItem), l.Perm l' →
      l.Pairwise (fun a b => mediaLE a b = true) →
      l'.Pairwise (fun a b => mediaLE a b = true) →
      (l'.map MediaItem.order).Nodup → l = l' := by
  intro l
  induction l with
  | nil =>
      intro l' hperm _ _ _
      exact (hperm.symm.eq_nil).symm
  | cons a l ih =>
      intro l' hperm hp hp' hnod'
      cases l' with
      | nil => exact absurd hperm.eq_nil (by simp)
      | cons b l₂ =>
          rw [List.pairwise_cons] at hp hp'
          by_cases hab : a = b
          · subst hab
            rw [ih l₂ hperm.cons_inv hp.2 hp'.2
              (by rw [List.map_cons, List.nodup_cons] at hnod'; exact hnod'.2)]
          · have hamem : a ∈ b :: l₂ := hperm.mem_iff.mp (List.mem_cons_self _ _)
            have hal₂ : a ∈ l₂ := by
              rcases List.mem_cons.mp hamem with h | h
              · exact absurd h hab
              · exact h
            have hbmem : b ∈ a :: l := hperm.mem_iff.mpr (List.mem_cons_self _ _)
            have hbl : b ∈ l := by
              rcases List.mem_cons.mp hbmem with h | h
              · exact absurd h.symm hab
              · exact h
            have hord : a.order = b.order :=
              mediaLE_antisymm_order a b (hp.1 b hbl) (hp'.1 a hal₂)
            rw [List.map_cons, List.nodup_cons] at hnod'
            have : a.order ∈ l₂.map MediaItem.order :=
              List.mem_map_of_mem MediaItem.order hal₂
            rw [hord] at this
            exact absurd this hnod'.1

/-! ## Facts about the `handleDragEnd` update list -/

theorem enumReorder_map_id (media : List MediaItem) :
    (enumReorder media).map MediaItem.id = media.map MediaItem.id := by
  conv_rhs => rw [← List.enum_map_snd media]
  rw [enumReorder, List.map_map, List.map_map]
  exact List.map_congr_left (fun p _ => rfl)

theorem enumReorder_map_sessionId (media : List MediaItem) :
    (enumReorder media).map MediaItem.sessionId
      = media.map MediaItem.sessionId := by
  conv_rhs => rw [← List.enum_map_snd media]
  rw [enumReorder, List.map_map, List.map_map]
  exact List.map_congr_left (fun p _ => rfl)

theorem enumReorder_map_order (media : List MediaItem) :
    (enumReorder media).map MediaItem.order = List.range media.length := by
  rw [← List.enum_map_fst media, enumReorder, List.map_map]
  exact List.map_congr_left (fun p _ => rfl)

theorem enumReorder_pairwise (media : List MediaItem) :
    (enumReorder media).Pairwise (fun a b => a.order < b.order) := by
  have h := List.pairwise_lt_range media.length
  rw [← enumReorder_map_order media] at h
  exact List.pairwise_map.mp h

/-! ## Interaction of a `put` batch with per-session filtering -/

theorem replOfKeyed_cases (u : List MediaItem) (x : MediaItem) :
    (replOfKeyed MediaItem.id u x = x ∧ ∀ y ∈ u, ¬ y.id = x.id)
    ∨ (replOfKeyed MediaItem.id u x ∈ u
        ∧ (replOfKeyed MediaItem.id u x).id = x.id) := by
  unfold replOfKeyed
  cases hf : u.find? (fun y => MediaItem.id y = MediaItem.id x) with
  | none =>
      left
      refine ⟨rfl, ?_⟩
      intro y hy hid
      rw [List.find?_eq_none] at hf
      exact hf y hy (by simpa using hid)
  | some z =>
      right
      exact ⟨List.mem_of_find?_eq_some hf,
        by have := List.find?_some hf; simpa using this⟩

theorem mem_key_inj {l : List MediaItem} (hl : (l.map MediaItem.id).Nodup)
    {x y : MediaItem} (hx : x ∈ l) (hy : y ∈ l) (h : x.id = y.id) : x = y :=
  List.inj_on_of_nodup_map hl hx hy h

theorem filter_map_replOfKeyed (l u : List MediaItem) (sid : String)
    (hl : (l.map MediaItem.id).Nodup)
    (husid : ∀ y ∈ u, y.sessionId = sid)
    (hucov : ∀ y ∈ u, ∃ x ∈ l, x.sessionId = sid ∧ x.id = y.id)
    (hcov2 : ∀ x ∈ l, x.sessionId = sid → ∃ y ∈ u, y.id = x.id) :
    (l.map (replOfKeyed MediaItem.id u)).filter (fun m => m.sessionId = sid)
      = (l.filter (fun m => m.sessionId = sid)).map (replOfKeyed MediaItem.id u)
    := by
  rw [List.filter_map]
  congr 1
  apply List.filter_congr
  intro x hx
  simp only [Function.comp, decide_eq_true_eq]
  rw [decide_eq_decide]
  constructor
  · intro hrep
    rcases replOfKeyed_cases u x with ⟨heq, _⟩ | ⟨hmem, hid⟩
    · rw [heq] at hrep; exact hrep
    · obtain ⟨x', hx', hsid', hid'⟩ := hucov _ hmem
      have hxx : x' = x := mem_key_inj hl hx' hx (hid'.trans hid)
      rw [← hxx]
      exact hsid'
  · intro hxsid
    obtain ⟨y, hy, hid⟩ := hcov2 x hx hxsid
    rcases replOfKeyed_cases u x with ⟨_, hnone⟩ | ⟨hmem, _⟩
    · exact absurd hid (hnone y hy)
    · exact husid _ hmem

theorem filter_ne_map_replOfKeyed (l u : List MediaItem) (sid k : String)
    (hl : (l.map MediaItem.id).Nodup)
    (husid : ∀ y ∈ u, y.sessionId = sid)
    (hucov : ∀ y ∈ u, ∃ x ∈ l, x.sessionId = sid ∧ x.id = y.id)
    (hk : ¬ k = sid) :
    (l.map (replOfKeyed MediaItem.id u)).filter (fun m => m.sessionId = k)
      = l.filter (fun m => m.sessionId = k) := by
  rw [List.filter_map]
  have hpred : ∀ x ∈ l,
      ((fun m => decide (m.sessionId = k)) ∘ replOfKeyed MediaItem.id u) x
        = decide (x.sessionId = k) := by
    intro x hx
    simp only [Function.comp]
    rcases replOfKeyed_cases u x with ⟨heq, _⟩ | ⟨hmem, hid⟩
    · rw [heq]
    · have h1 : (replOfKeyed MediaItem.id u x).sessionId = sid := husid _ hmem
      obtain ⟨x', hx', hsid', hid'⟩ := hucov _ hmem
      have hxx : x' = x := mem_key_inj hl hx' hx (hid'.trans hid)
      have hxs : x.sessionId = sid := by rw [← hxx]; exact hsid'
      rw [h1, hxs]
  rw [List.filter_congr hpred]
  conv_rhs => rw [← List.map_id (l.filter (fun m => m.sessionId = k))]
  apply List.map_congr_left
  intro x hxf
  obtain ⟨hxl, hxk⟩ := List.mem_filter.mp hxf
  simp only [decide_eq_true_eq] at hxk
  rcases replOfKeyed_cases u x with ⟨heq, _⟩ | ⟨hmem, hid⟩
  · exact heq
  · obtain ⟨x', hx', hsid', hid'⟩ := hucov _ hmem
    have hxx : x' = x := mem_key_inj hl hx' hxl (hid'.trans hid)
    have hxs : x.sessionId = sid := by rw [← hxx]; exact hsid'
    exact absurd (hxk.symm.trans hxs) hk

/-- Full effect of `handleDragEnd` on the store: the sessions store is
untouched, every stored media record is replaced by its reordered version
when it belongs to the reordered session, the reordered session's records
become (a permutation of) the reorder batch, and every other session's
records are untouched. -/
theorem handleDragEnd_state (st : DBState) (sid : String)
    (media : List MediaItem)
    (hwf : (st.media.map MediaItem.id).Nodup)
    (hperm : media.Perm (st.media.filter (fun m => m.sessionId = sid))) :
    ∃ st', handleDragEnd st media = .ok st'
      ∧ st'.sessions = st.sessions
      ∧ st'.media = st.media.map (replOfKeyed MediaItem.id (enumReorder media))
      ∧ (st'.media.filter (fun m => m.sessionId = sid)).Perm
          (enumReorder media)
      ∧ (∀ k, ¬ k = sid →
          st'.media.filter (fun m => m.sessionId = k)
            = st.media.filter (fun m => m.sessionId = k)) := by
  have hmedia_sid : ∀ m ∈ media, m.sessionId = sid := by
    intro m hm
    have hmf := hperm.mem_iff.mp hm
    have := (List.mem_filter.mp hmf).2
    simpa using this
  have husid : ∀ y ∈ enumReorder media, y.sessionId = sid := by
    intro y hy
    have hmem : y.sessionId ∈ (enumReorder media).map MediaItem.sessionId :=
      List.mem_map_of_mem _ hy
    rw [enumReorder_map_sessionId] at hmem
    obtain ⟨m, hm, hms⟩ := List.mem_map.mp hmem
    rw [← hms]
    exact hmedia_sid m hm
  have hidperm : ((enumReorder media).map MediaItem.id).Perm
      ((st.media.filter (fun m => m.sessionId = sid)).map MediaItem.id) := by
    rw [enumReorder_map_id]
    exact hperm.map _
  have hvnod : ((st.media.filter (fun m => m.sessionId = sid)).map
      MediaItem.id).Nodup :=
    List.Nodup.sublist
      (List.Sublist.map MediaItem.id (List.filter_sublist st.media)) hwf
  have hunod : ((enumReorder media).map MediaItem.id).Nodup :=
    hidperm.symm.nodup hvnod
  have hucov : ∀ y ∈ enumReorder media,
      ∃ x ∈ st.media, x.sessionId = sid ∧ x.id = y.id := by
    intro y hy
    have hmem : y.id ∈ (enumReorder media).map MediaItem.id :=
      List.mem_map_of_mem _ hy
    have hmem2 := hidperm.mem_iff.mp hmem
    obtain ⟨x, hxf, hxid⟩ := List.mem_map.mp hmem2
    obtain ⟨hxl, hxs⟩ := List.mem_filter.mp hxf
    exact ⟨x, hxl, by simpa using hxs, hxid⟩
  have hcov2 : ∀ x ∈ st.media, x.sessionId = sid →
      ∃ y ∈ enumReorder media, y.id = x.id := by
    intro x hxl hxs
    have hxf : x ∈ st.media.filter (fun m => m.sessionId = sid) :=
      List.mem_filter.mpr ⟨hxl, by simpa using hxs⟩
    have hmem : x.id ∈
        (st.media.filter (fun m => m.sessionId = sid)).map MediaItem.id :=
      List.mem_map_of_mem _ hxf
    have hmem2 := hidperm.symm.mem_iff.mp hmem
    obtain ⟨y, hy, hyid⟩ := List.mem_map.mp hmem2
    exact ⟨y, hy, hyid⟩
  have hmedia_eq : (enumReorder media).foldl (putKeyed MediaItem.id) st.media
      = st.media.map (replOfKeyed MediaItem.id (enumReorder media)) := by
    apply foldl_putKeyed_eq_map
    · exact hunod
    · intro y hy
      obtain ⟨x, hxl, _, hxid⟩ := hucov y hy
      exact ⟨x, hxl, hxid⟩
  refine ⟨{ sessions := st.sessions,
            media := st.media.map (replOfKeyed MediaItem.id
              (enumReorder media)) }, ?_, rfl, rfl, ?_, ?_⟩
  · rw [handleDragEnd, updateMediaItems, hmedia_eq]
  · rw [filter_map_replOfKeyed st.media (enumReorder media) sid hwf husid
      hucov hcov2]
    exact map_replOfKeyed_perm MediaItem.id _ _ hvnod hunod hidperm.symm
  · intro k hk
    exact filter_ne_map_replOfKeyed st.media (enumReorder media) sid k hwf
      husid hucov hk

/-! ## Unfolding lemmas for `addMediaItem` -/

theorem addMediaItem_ok (st : DBState) (item : MediaItem) (now : Nat)
    (hfresh : ¬ st.media.any (fun y => y.id = item.id) = true) :
    addMediaItem st item now = .ok
      { sessions :=
          match st.sessions.find? (fun s => s.id = item.sessionId) with
          | some s =>
              putKeyed Session.id st.sessions
                { s with itemCount := s.itemCount + 1, lastModified := now }
          | none => st.sessions,
        media := st.media ++ [{ item with order := (st.media.filter
          (fun m => m.sessionId = item.sessionId)).length }] } := by
  unfold addMediaItem
  rw [if_neg hfresh]

theorem addMediaItem_ok_found (st : DBState) (item : MediaItem) (now : Nat)
    (s : Session)
    (hfresh : ¬ st.media.any (fun y => y.id = item.id) = true)
    (hs : st.sessions.find? (fun x => x.id = item.sessionId) = some s) :
    addMediaItem st item now = .ok
      { sessions := putKeyed Session.id st.sessions
          { s with itemCount := s.itemCount + 1, lastModified := now },
        media := st.media ++ [{ item with order := (st.media.filter
          (fun m => m.sessionId = item.sessionId)).length }] } := by
  rw [addMediaItem_ok st item now hfresh, hs]

theorem addMediaItem_ok_missing (st : DBState) (item : MediaItem) (now : Nat)
    (hfresh : ¬ st.media.any (fun y => y.id = item.id) = true)
    (hnone : st.sessions.find? (fun x => x.id = item.sessionId) = none) :
    addMediaItem st item now = .ok
      { sessions := st.sessions,
        media := st.media ++ [{ item with order := (st.media.filter
          (fun m => m.sessionId = item.sessionId)).length }] } := by
  rw [addMediaItem_ok st item now hfresh, hnone]

theorem find?_of_not_any {α : Type} {p : α → Bool} {l : List α}
    (h : ¬ l.any p = true) : l.find? p = none := by
  rw [List.find?_eq_none]
  intro x hx hp
  exact h (List.any_eq_true.mpr ⟨x, hx, hp⟩)

/-! ## Concrete stores used by witnesses and counterexamples -/

/-- A session used in concrete instances. -/
def sess0 : Session :=
  { id := "s0", name := "S", createdAt := 0, lastModified := 10, itemCount := 1 }

/-- A media item owned by `sess0`. -/
def item0 : MediaItem :=
  { id := "m0", sessionId := "s0", type := .video, blob := 0, createdAt := 1,
    duration := some 5, trimNeeded := some false, order := 0 }

/-- An item whose id does not occur in `st0` — not a permutation member. -/
def stray : MediaItem :=
  { id := "mX", sessionId := "s0", type := .photo, blob := 1, createdAt := 2,
    order := 5 }

/-- A fresh item for `addMediaItem` instances. -/
def item1 : MediaItem :=
  { id := "m1", sessionId := "s0", type := .photo, blob := 3, createdAt := 4,
    order := 0 }

/-- An item referring to a nonexistent session. -/
def orphanItem : MediaItem :=
  { id := "mo", sessionId := "zz", type := .video, blob := 2, createdAt := 3,
    order := 0 }

/-- Concrete store: one session `s0` owning one item `m0`. -/
def st0 : DBState := { sessions := [sess0], media := [item0] }

/-- The empty store. -/
def stEmpty : DBState := { sessions := [], media := [] }

/-! ## Claims -/

/-- C7: persisting a reorder (`handleDragEnd`, which writes through
`updateMediaItems`) touches only the media store: for any store and any
update batch the operation succeeds and the sessions store — hence every
session's `lastModified` and every other session field — is unchanged, and
`getSessions` returns the same listing. -/
theorem C7_reorder_fixes_sessions (st : DBState) (items media : List MediaItem) :
    (∃ st', updateMediaItems st items = .ok st'
      ∧ st'.sessions = st.sessions ∧ getSessions st' = getSessions st)
    ∧ (∃ st', handleDragEnd st media = .ok st'
      ∧ st'.sessions = st.sessions ∧ getSessions st' = getSessions st) :=
  ⟨⟨_, rfl, rfl, rfl⟩, ⟨_, rfl, rfl, rfl⟩⟩

/-- C10: saving from the trim/crop editor (`performSave`) persists the item
with `trimNeeded = false`, `trimEndTime` and `duration` both equal to the
chosen end time, and `crop` equal to the chosen rectangle. -/
theorem C10_trim_save (st : DBState) (item : MediaItem) (endTime : ℚ)
    (crop : CropRect) (now : Nat) :
    ∃ upd, getMediaItem (performSave st item endTime crop now) item.id
        = some upd
      ∧ upd.trimNeeded = some false
      ∧ upd.trimEndTime = some endTime
      ∧ upd.duration = some endTime
      ∧ upd.crop = some crop
      ∧ upd.id = item.id := by
  refine ⟨{ item with
              trimNeeded := some false,
              trimEndTime := some endTime,
              duration := some endTime,
              crop := some crop },
          ?_, rfl, rfl, rfl, rfl, rfl⟩
  unfold performSave updateMediaItem getMediaItem
  exact find?_putKeyed_self MediaItem.id st.media
    { item with
        trimNeeded := some false,
        trimEndTime := some endTime,
        duration := some endTime,
        crop := some crop }

/-- C4 counterexample: `[stray]` is not a permutation of the media-item ids
of session `"s0"` in `st0`, yet `updateMediaItems` succeeds (no
`ValidationError`) and changes the stored items (it inserts `stray`). -/
theorem C4_counterexample :
    ¬ ([stray].map MediaItem.id).Perm
        ((st0.media.filter (fun m => m.sessionId = "s0")).map MediaItem.id)
    ∧ updateMediaItems st0 [stray]
        = .ok { sessions := [sess0], media := [item0, stray] }
    ∧ ¬ ({ sessions := [sess0], media := [item0, stray] } : DBState).media
        = st0.media := by
  refine ⟨by decide, ?_, by decide⟩
  rfl

/-- C4 (amended): `updateMediaItems` performs no permutation validation
whatsoever — for every input batch (with distinct ids) it succeeds, leaves
the sessions store unchanged, and stores every given item verbatim, whether
or not the batch is a permutation of the session's current items. -/
theorem C4_amended_no_validation (st : DBState) (items : List MediaItem)
    (hnod : (items.map MediaItem.id).Nodup) :
    ∃ st', updateMediaItems st items = .ok st'
      ∧ st'.sessions = st.sessions
      ∧ ∀ it ∈ items, st'.media.find? (fun m => m.id = it.id) = some it := by
  refine ⟨_, rfl, rfl, ?_⟩
  intro it hit
  exact find?_foldl_putKeyed_self MediaItem.id items st.media hnod hit

/-- Witness for C4 (amended) at the concrete store `st0`. -/
theorem C4_amended_no_validation_witness :
    ([stray].map MediaItem.id).Nodup
    ∧ ∃ st', updateMediaItems st0 [stray] = .ok st'
      ∧ st'.sessions = st0.sessions
      ∧ ∀ it ∈ [stray], st'.media.find? (fun m => m.id = it.id) = some it :=
  ⟨by decide, C4_amended_no_validation st0 [stray] (by decide)⟩

/-- C1 counterexample: on the empty store there is no session `"s0"`, yet
`addMediaItem` succeeds (it does not fail with `NotFound`) and the orphan
item is observable to a subsequent `getMediaForSession` read. -/
theorem C1_counterexample :
    stEmpty.sessions.find? (fun s => s.id = "s0") = none
    ∧ addMediaItem stEmpty item0 7
        = .ok { sessions := [], media := [{ item0 with order := 0 }] }
    ∧ { item0 with order := 0 } ∈ getMediaForSession
        { sessions := ([] : List Session),
          media := [{ item0 with order := 0 }] } "s0" := by
  refine ⟨rfl, rfl, ?_⟩
  unfold getMediaForSession
  apply (List.mergeSort_perm _ mediaLE).mem_iff.mpr
  decide

/-- C1 (amended): when the session does not exist, `addMediaItem` does not
fail — it silently inserts the item (with `order` = the count of items
already carrying that `sessionId`), leaves the sessions store unchanged, and
the orphan is observable to `getMediaForSession`. -/
theorem C1_amended_orphan_insert (st : DBState) (item : MediaItem) (now : Nat)
    (hnone : st.sessions.find? (fun s => s.id = item.sessionId) = none)
    (hfresh : ¬ st.media.any (fun y => y.id = item.id) = true) :
    ∃ st', addMediaItem st item now = .ok st'
      ∧ st'.sessions = st.sessions
      ∧ st'.media = st.media ++
          [{ item with order := (st.media.filter
              (fun m => m.sessionId = item.sessionId)).length }]
      ∧ { item with order := (st.media.filter
            (fun m => m.sessionId = item.sessionId)).length }
          ∈ getMediaForSession st' item.sessionId := by
  refine ⟨_, addMediaItem_ok_missing st item now hfresh hnone, rfl, rfl, ?_⟩
  unfold getMediaForSession
  apply (List.mergeSort_perm _ mediaLE).mem_iff.mpr
  apply List.mem_filter.mpr
  constructor
  · exact List.mem_append_right _ (List.mem_singleton.mpr rfl)
  · simp

/-- Witness for C1 (amended): adding `orphanItem` (session `"zz"`) to `st0`,
which has no such session. -/
theorem C1_amended_orphan_insert_witness :
    st0.sessions.find? (fun s => s.id = orphanItem.sessionId) = none
    ∧ ¬ st0.media.any (fun y => y.id = orphanItem.id) = true
    ∧ ∃ st', addMediaItem st0 orphanItem 9 = .ok st'
      ∧ st'.sessions = st0.sessions
      ∧ st'.media = st0.media ++
          [{ orphanItem with order := (st0.media.filter
              (fun m => m.sessionId = orphanItem.sessionId)).length }]
      ∧ { orphanItem with order := (st0.media.filter
            (fun m => m.sessionId = orphanItem.sessionId)).length }
          ∈ getMediaForSession st' orphanItem.sessionId :=
  ⟨by decide, by decide,
    C1_amended_orphan_insert st0 orphanItem 9 (by decide) (by decide)⟩

theorem find?_append_fresh {l : List MediaItem} {x : MediaItem}
    (hfresh : ¬ l.any (fun y => y.id = x.id) = true) :
    (l ++ [x]).find? (fun m => m.id = x.id) = some x := by
  rw [List.find?_append, find?_of_not_any hfresh, Option.none_or,
      List.find?_cons_of_pos _ (by simp)]

theorem saveMedia_ok (st : DBState) (sessionId id : String) (blob : Nat)
    (ty : MediaType) (flagged : Bool) (rt : ℚ) (now : Nat)
    (hfresh : ¬ st.media.any (fun y => y.id = id) = true) :
    saveMedia st sessionId id blob ty flagged rt now
      = ({ sessions :=
            match st.sessions.find? (fun s => s.id = sessionId) with
            | some s =>
                putKeyed Session.id st.sessions
                  { s with itemCount := s.itemCount + 1, lastModified := now }
            | none => st.sessions,
           media := st.media ++
             [{ builtMediaItem sessionId id blob ty flagged rt now with
                 order := (st.media.filter
                   (fun m => m.sessionId = sessionId)).length }] },
         some id) := by
  unfold saveMedia
  rw [addMediaItem_ok st (builtMediaItem sessionId id blob ty flagged rt now)
    now hfresh]
  rfl


/-- C9: when the suppress-flag-prompt preference is true, finishing a
flagged recording persists the item with `trimNeeded = true` at once and the
flag modal (`PromptPending`) is never entered: `showFlagModal` stays false
and no blob is parked for a modal. -/
theorem C9_suppressed_flag_prompt (ls : LocalStorage) (st : DBState)
    (sessionId id : String) (blob : Nat) (rt : ℚ) (now : Nat)
    (hpref : getShouldSkipFlagPrompt ls = true)
    (hfresh : ¬ st.media.any (fun y => y.id = id) = true) :
    (handleFlaggedWorkflow ls st sessionId id blob rt now).showFlagModal = false
    ∧ (handleFlaggedWorkflow ls st sessionId id blob rt now).pendingFlaggedBlob
        = none
    ∧ ∃ it, getMediaItem
          (handleFlaggedWorkflow ls st sessionId id blob rt now).db id
            = some it
        ∧ it.trimNeeded = some true := by
  unfold handleFlaggedWorkflow
  rw [if_pos hpref, saveMedia_ok st sessionId id blob MediaType.video true
    rt now hfresh]
  refine ⟨rfl, rfl,
    { builtMediaItem sessionId id blob MediaType.video true rt now with
        order := (st.media.filter (fun m => m.sessionId = sessionId)).length },
    ?_, rfl⟩
  exact find?_append_fresh (l := st.media)
    (x := { builtMediaItem sessionId id blob MediaType.video true rt now with
        order := (st.media.filter (fun m => m.sessionId = sessionId)).length })
    hfresh

/-- Witness for C9. -/
theorem C9_suppressed_flag_prompt_witness :
    getShouldSkipFlagPrompt [(KEY_SKIP_FLAG_PROMPT, "true")] = true
    ∧ ¬ st0.media.any (fun y => y.id = "m9") = true
    ∧ (handleFlaggedWorkflow [(KEY_SKIP_FLAG_PROMPT, "true")] st0 "s0" "m9"
        4 6 12).showFlagModal = false
    ∧ (handleFlaggedWorkflow [(KEY_SKIP_FLAG_PROMPT, "true")] st0 "s0" "m9"
        4 6 12).pendingFlaggedBlob = none
    ∧ ∃ it, getMediaItem (handleFlaggedWorkflow [(KEY_SKIP_FLAG_PROMPT,
        "true")] st0 "s0" "m9" 4 6 12).db "m9" = some it
        ∧ it.trimNeeded = some true := by
  have h := C9_suppressed_flag_prompt [(KEY_SKIP_FLAG_PROMPT, "true")] st0
    "s0" "m9" 4 6 12 (by decide) (by decide)
  exact ⟨by decide, by decide, h.1, h.2.1, h.2.2⟩

/-- C3: a successful `addMediaItem` on an existing session appends the item
at the tail — its `order` is the count of that session's media items before
the call — and, in the same operation, increments the session's `itemCount`
by exactly 1 and strictly increases its `lastModified` (given that the
wall clock has advanced past the stored timestamp). -/
theorem C3_append_and_bump (st : DBState) (item : MediaItem) (now : Nat)
    (s : Session)
    (hs : st.sessions.find? (fun x => x.id = item.sessionId) = some s)
    (hfresh : ¬ st.media.any (fun y => y.id = item.id) = true)
    (hnow : s.lastModified < now) :
    ∃ st', addMediaItem st item now = .ok st'
      ∧ st'.media = st.media ++
          [{ item with order := (st.media.filter
              (fun m => m.sessionId = item.sessionId)).length }]
      ∧ ∃ s', st'.sessions.find? (fun x => x.id = item.sessionId) = some s'
          ∧ s'.itemCount = s.itemCount + 1
          ∧ s.lastModified < s'.lastModified := by
  refine ⟨_, addMediaItem_ok_found st item now s hfresh hs, rfl,
    { s with itemCount := s.itemCount + 1, lastModified := now },
    ?_, rfl, hnow⟩
  have hsid : s.id = item.sessionId := by
    have := List.find?_some hs
    simpa using this
  have hpred : (fun x : Session => decide (x.id = item.sessionId))
      = (fun y : Session => decide (y.id
          = ({ s with
                itemCount := s.itemCount + 1,
                lastModified := now } : Session).id)) := by
    funext y
    rw [← hsid]
  rw [hpred]
  exact find?_putKeyed_self Session.id st.sessions
    { s with itemCount := s.itemCount + 1, lastModified := now }

/-- Witness for C3: adding `item1` to `st0` at time 11. -/
theorem C3_append_and_bump_witness :
    st0.sessions.find? (fun x => x.id = item1.sessionId) = some sess0
    ∧ ¬ st0.media.any (fun y => y.id = item1.id) = true
    ∧ sess0.lastModified < 11
    ∧ ∃ st', addMediaItem st0 item1 11 = .ok st'
      ∧ st'.media = st0.media ++
          [{ item1 with order := (st0.media.filter
              (fun m => m.sessionId = item1.sessionId)).length }]
      ∧ ∃ s', st'.sessions.find? (fun x => x.id = item1.sessionId) = some s'
          ∧ s'.itemCount = sess0.itemCount + 1
          ∧ sess0.lastModified < s'.lastModified :=
  ⟨by decide, by decide, by decide,
    C3_append_and_bump st0 item1 11 sess0 (by decide) (by decide) (by decide)⟩

/-- C5: `deleteSession` removes the session and all of its media in one
operation — afterwards `getMediaForSession` on that id is empty and the id
is absent from the `getSessions` listing; on a nonexistent id (given the
referential integrity the data model guarantees: every stored media item
has an owning session) it is a no-op; and it is idempotent. -/
theorem C5_deleteSession (st : DBState) (id : String) :
    getMediaForSession (deleteSession st id) id = []
    ∧ id ∉ (getSessions (deleteSession st id)).map Session.id
    ∧ ((∀ m ∈ st.media, ∃ s ∈ st.sessions, s.id = m.sessionId) →
        st.sessions.find? (fun s => s.id = id) = none →
        deleteSession st id = st)
    ∧ deleteSession (deleteSession st id) id = deleteSession st id := by
  refine ⟨?_, ?_, ?_, ?_⟩
  · unfold getMediaForSession deleteSession
    have h : (st.media.filter (fun m => ¬ m.sessionId = id)).filter
        (fun m => m.sessionId = id) = [] := by
      rw [List.filter_filter]
      apply List.eq_nil_iff_forall_not_mem.mpr
      intro m hm
      have := (List.mem_filter.mp hm).2
      simp at this
    rw [h, List.mergeSort_nil]
  · intro hmem
    obtain ⟨s, hsmem, hsid⟩ := List.mem_map.mp hmem
    have hs2 : s ∈ (deleteSession st id).sessions :=
      ((List.mergeSort_perm _ sessionLE).mem_iff).mp hsmem
    have := (List.mem_filter.mp hs2).2
    simp only [decide_eq_true_eq] at this
    exact this hsid
  · intro hri hnone
    have hs : st.sessions.filter (fun s => ¬ s.id = id) = st.sessions := by
      rw [List.filter_eq_self]
      intro s hsmem
      rw [List.find?_eq_none] at hnone
      have := hnone s hsmem
      simpa using this
    have hm : st.media.filter (fun m => ¬ m.sessionId = id) = st.media := by
      rw [List.filter_eq_self]
      intro m hmmem
      obtain ⟨s, hsmem, hsid⟩ := hri m hmmem
      rw [List.find?_eq_none] at hnone
      have hne := hnone s hsmem
      simp only [decide_eq_true_eq] at hne ⊢
      intro hmid
      exact hne (by rw [hsid, hmid])
    unfold deleteSession
    rw [hs, hm]
  · unfold deleteSession
    simp only [List.filter_filter]
    congr 1
    · apply List.filter_congr
      intro s _
      exact Bool.and_self _
    · apply List.filter_congr
      intro m _
      exact Bool.and_self _

/-- Witness for C5: the no-op clause at the concrete store `st0` and a
nonexistent id `"zz"`. -/
theorem C5_deleteSession_witness :
    (∀ m ∈ st0.media, ∃ s ∈ st0.sessions, s.id = m.sessionId)
    ∧ st0.sessions.find? (fun s => s.id = "zz") = none
    ∧ deleteSession st0 "zz" = st0 :=
  ⟨by decide, by decide,
    (C5_deleteSession st0 "zz").2.2.1 (by decide) (by decide)⟩

/-- C8: for every session and every reordering `media` of its stored items,
persisting the reorder (`handleDragEnd`) and then reading back with
`getMediaForSession` returns the items in exactly the reordered sequence
(compared by id). -/
theorem C8_reorder_roundtrip (st : DBState) (sid : String)
    (media : List MediaItem) (st' : DBState)
    (hwf : st.WF)
    (hperm : media.Perm (st.media.filter (fun m => m.sessionId = sid)))
    (hok : handleDragEnd st media = .ok st') :
    (getMediaForSession st' sid).map MediaItem.id = media.map MediaItem.id := by
  obtain ⟨st'', h1, _, _, h4, _⟩ := handleDragEnd_state st sid media hwf.2 hperm
  rw [hok] at h1
  injection h1 with h1
  subst h1
  unfold getMediaForSession
  have hsorted := List.sorted_mergeSort mediaLE_trans mediaLE_total
    (st'.media.filter (fun m => m.sessionId = sid))
  have hpermSort := List.mergeSort_perm
    (st'.media.filter (fun m => m.sessionId = sid)) mediaLE
  have hchain := hpermSort.trans h4
  have hupair : (enumReorder media).Pairwise (fun a b => mediaLE a b = true) := by
    apply (enumReorder_pairwise media).imp
    intro a b hlt
    simp only [mediaLE, Bool.or_eq_true, Bool.and_eq_true, decide_eq_true_eq]
    exact Or.inl hlt
  have hnodord : ((enumReorder media).map MediaItem.order).Nodup := by
    rw [enumReorder_map_order]
    exact List.nodup_range _
  have heq := sorted_perm_eq_of_orders_nodup _ _ hchain hsorted hupair hnodord
  rw [heq, enumReorder_map_id]

/-- Two items of `sess0` used by the reorder witness. -/
def itemA : MediaItem :=
  { id := "a1", sessionId := "s0", type := .video, blob := 5, createdAt := 5,
    order := 0 }

def itemB : MediaItem :=
  { id := "b1", sessionId := "s0", type := .video, blob := 6, createdAt := 6,
    order := 1 }

/-- Store with items [itemA, itemB] in order 0, 1. -/
def stW : DBState := { sessions := [sess0], media := [itemA, itemB] }

/-- `stW` after persisting the reorder [itemB, itemA]. -/
def stW2 : DBState :=
  { sessions := [sess0],
    media := [{ itemA with order := 1 }, { itemB with order := 0 }] }

/-- Witness for C8: swapping the two items of `stW`. -/
theorem C8_reorder_roundtrip_witness :
    stW.WF
    ∧ [itemB, itemA].Perm (stW.media.filter (fun m => m.sessionId = "s0"))
    ∧ handleDragEnd stW [itemB, itemA] = .ok stW2
    ∧ (getMediaForSession stW2 "s0").map MediaItem.id
        = [itemB, itemA].map MediaItem.id :=
  ⟨⟨by decide, by decide⟩, by decide, rfl,
    C8_reorder_roundtrip stW "s0" [itemB, itemA] stW2
      ⟨by decide, by decide⟩ (by decide) rfl⟩

/-- Membership characterization of the keys of a `put`. -/
theorem keys_mem_putKeyed {α : Type} (key : α → String) (l : List α) (x : α) :
    ∀ z ∈ putKeyed key l x, key z = key x ∨ key z ∈ l.map key := by
  intro z hz
  unfold putKeyed at hz
  split at hz
  · obtain ⟨z₀, hz₀, hmap⟩ := List.mem_map.mp hz
    by_cases hb : key z₀ = key x
    · rw [if_pos hb] at hmap
      left
      rw [← hmap]
    · rw [if_neg hb] at hmap
      right
      rw [← hmap]
      exact List.mem_map_of_mem key hz₀
  · rcases List.mem_append.mp hz with h | h
    · right
      exact List.mem_map_of_mem key h
    · left
      rw [List.mem_singleton.mp h]

/-- Appending one item whose `order` equals the current count of its
session's items preserves the per-session orders-are-range property. -/
theorem orders_perm_append (l : List MediaItem) (x : MediaItem) (j : String)
    (hord : x.order = (l.filter (fun m => m.sessionId = x.sessionId)).length)
    (hinv : ((l.filter (fun m => m.sessionId = j)).map MediaItem.order).Perm
      (List.range (l.filter (fun m => m.sessionId = j)).length)) :
    (((l ++ [x]).filter (fun m => m.sessionId = j)).map MediaItem.order).Perm
      (List.range ((l ++ [x]).filter (fun m => m.sessionId = j)).length) := by
  rw [List.filter_append]
  by_cases hcase : x.sessionId = j
  · have h1 : [x].filter (fun m => m.sessionId = j) = [x] := by simp [hcase]
    rw [h1, List.map_append, List.length_append]
    simp only [List.map_cons, List.map_nil, List.length_cons, List.length_nil]
    rw [hord, hcase, List.range_succ]
    exact hinv.append (List.Perm.refl _)
  · have h1 : [x].filter (fun m => m.sessionId = j) = [] := by simp [hcase]
    rw [h1, List.append_nil]
    exact hinv

/-- The spec's ordering invariant: within every session, the `order` values
of its owned media items are exactly `{0, …, n-1}`, where n is the number
of owned items. -/
@[reducible] def OrderInvariant (st : DBState) : Prop :=
  ∀ s ∈ st.sessions,
    ((st.media.filter (fun m => m.sessionId = s.id)).map MediaItem.order).Perm
      (List.range (st.media.filter (fun m => m.sessionId = s.id)).length)

/-- C2: the ordering invariant is preserved by every operation that creates,
deletes or reorders media items: `addMediaItem` (which appends at
`order = n`), `deleteSession` (which removes a session's whole item set),
and the drag-reorder persist (which reassigns `order = index` over the full
list). -/
theorem C2_order_invariant_preserved :
    (∀ (st : DBState) (item : MediaItem) (now : Nat) (st' : DBState),
        OrderInvariant st → addMediaItem st item now = .ok st' →
        OrderInvariant st')
    ∧ (∀ (st : DBState) (id : String),
        OrderInvariant st → OrderInvariant (deleteSession st id))
    ∧ (∀ (st : DBState) (sid : String) (media : List MediaItem)
        (st' : DBState),
        st.WF → OrderInvariant st →
        media.Perm (st.media.filter (fun m => m.sessionId = sid)) →
        handleDragEnd st media = .ok st' → OrderInvariant st') := by
  refine ⟨?_, ?_, ?_⟩
  · intro st item now st' hinv hok
    by_cases hfresh : st.media.any (fun y => y.id = item.id) = true
    · unfold addMediaItem at hok
      rw [if_pos hfresh] at hok
      exact Except.noConfusion hok
    · rw [addMediaItem_ok st item now hfresh] at hok
      injection hok with hok
      subst hok
      intro s' hs'
      have hexists : ∃ s₀ ∈ st.sessions, s'.id = s₀.id := by
        cases hfind : st.sessions.find? (fun s => s.id = item.sessionId) with
        | some s =>
            simp only [hfind] at hs'
            rcases keys_mem_putKeyed Session.id st.sessions
              { s with itemCount := s.itemCount + 1, lastModified := now }
              s' hs' with h | h
            · exact ⟨s, List.mem_of_find?_eq_some hfind, h⟩
            · obtain ⟨s₀, hs₀, hs₀id⟩ := List.mem_map.mp h
              exact ⟨s₀, hs₀, hs₀id.symm⟩
        | none =>
            simp only [hfind] at hs'
            exact ⟨s', hs', rfl⟩
      obtain ⟨s₀, hs₀, hid⟩ := hexists
      have hinv₀ : ((st.media.filter (fun m => m.sessionId = s'.id)).map
          MediaItem.order).Perm
          (List.range (st.media.filter (fun m => m.sessionId = s'.id)).length)
          := by
        rw [hid]
        exact hinv s₀ hs₀
      exact orders_perm_append st.media
        { item with order := (st.media.filter
            (fun m => m.sessionId = item.sessionId)).length }
        s'.id rfl hinv₀
  · intro st id hinv s' hs'
    have hmem := List.mem_filter.mp hs'
    have hsid : ¬ s'.id = id := by simpa using hmem.2
    have hfilters : (deleteSession st id).media.filter
        (fun m => m.sessionId = s'.id)
        = st.media.filter (fun m => m.sessionId = s'.id) := by
      show (st.media.filter (fun m => ¬ m.sessionId = id)).filter
        (fun m => m.sessionId = s'.id) = _
      rw [List.filter_filter]
      apply List.filter_congr
      intro m _
      by_cases hm : m.sessionId = s'.id
      · simp [hm, hsid]
      · simp [hm]
    rw [hfilters]
    exact hinv s' hmem.1
  · intro st sid media st' hwf hinv hperm hok
    obtain ⟨st'', h1, h2, _, h4, h5⟩ :=
      handleDragEnd_state st sid media hwf.2 hperm
    rw [hok] at h1
    injection h1 with h1
    subst h1
    intro s' hs'
    rw [h2] at hs'
    by_cases hcase : s'.id = sid
    · have hp : (st'.media.filter (fun m => m.sessionId = s'.id)).Perm
          (enumReorder media) := by
        rw [hcase]
        exact h4
      have hords := hp.map MediaItem.order
      rw [enumReorder_map_order] at hords
      have hlen : (st'.media.filter (fun m => m.sessionId = s'.id)).length
          = media.length := by
        rw [hp.length_eq]
        unfold enumReorder
        rw [List.length_map, List.enum_length]
      rw [hlen]
      exact hords
    · rw [h5 s'.id hcase]
      exact hinv s' hs'

/-- `st0` after the witness `addMediaItem st0 item1 11`. -/
def stC2 : DBState :=
  { sessions := [{ sess0 with itemCount := 2, lastModified := 11 }],
    media := [item0, { item1 with order := 1 }] }

/-- Witness for C2: the `addMediaItem` clause at the concrete store `st0`. -/
theorem C2_order_invariant_preserved_witness :
    OrderInvariant st0
    ∧ addMediaItem st0 item1 11 = .ok stC2
    ∧ OrderInvariant stC2 :=
  ⟨by decide, rfl,
    C2_order_invariant_preserved.1 st0 item1 11 stC2 (by decide) rfl⟩

/-- The three clips of the spec's Scenario B: durations 5.0, 3.0, 4.0; only
the middle clip is trimmed, to 1.5. -/
def clipA : MediaItem :=
  { id := "ca", sessionId := "sq", type := .video, blob := 10,
    createdAt := 100, duration := some 5, trimNeeded := some false,
    order := 0 }

def clipB : MediaItem :=
  { id := "cb", sessionId := "sq", type := .video, blob := 11,
    createdAt := 101, duration := some 3, trimNeeded := some false,
    trimEndTime := some (3/2), order := 1 }

def clipC : MediaItem :=
  { id := "cc", sessionId := "sq", type := .video, blob := 12,
    createdAt := 102, duration := some 4, trimNeeded := some false,
    order := 2 }

def mergeQ : List MediaItem := [clipA, clipB, clipC]

/-- The clip refuting C6 as originally stated: its trim boundary is present
but equal to 0, which JS truthiness treats like no boundary at all. -/
def clipZ : MediaItem :=
  { id := "cz", sessionId := "sq", type := .video, blob := 13,
    createdAt := 103, duration := some 2, trimNeeded := some false,
    trimEndTime := some 0, order := 0 }

/-- C6 counterexample: `clipZ` has `trimEndTime = some 0` and the observed
position 1 has reached that boundary, yet `handleMergeTimeUpdate` leaves the
state unchanged (the `currentItem.trimEndTime &&` gate skips a zero
boundary) instead of advancing — here `playNextInQueue` would have ended
the one-clip sequence. -/
theorem C6_counterexample :
    clipZ.trimEndTime = some 0
    ∧ (0 : ℚ) ≤ 1
    ∧ handleMergeTimeUpdate ⟨[clipZ], 0, true⟩ 1 = ⟨[clipZ], 0, true⟩
    ∧ playNextInQueue ⟨[clipZ], 0, true⟩ = ⟨[clipZ], 0, false⟩
    ∧ ¬ handleMergeTimeUpdate ⟨[clipZ], 0, true⟩ 1
        = playNextInQueue ⟨[clipZ], 0, true⟩ := by
  refine ⟨rfl, by norm_num, ?_, rfl, ?_⟩
  · show (if ¬ (0 : ℚ) = 0 ∧ (0 : ℚ) ≤ 1
        then playNextInQueue ⟨[clipZ], 0, true⟩ else ⟨[clipZ], 0, true⟩)
      = ⟨[clipZ], 0, true⟩
    rw [if_neg (fun h => h.1 rfl)]
  · show ¬ (if ¬ (0 : ℚ) = 0 ∧ (0 : ℚ) ≤ 1
        then playNextInQueue ⟨[clipZ], 0, true⟩ else ⟨[clipZ], 0, true⟩)
      = playNextInQueue ⟨[clipZ], 0, true⟩
    rw [if_neg (fun h => h.1 rfl)]
    intro h
    exact MergeState.noConfusion h (fun _ _ hb => Bool.noConfusion hb)

/-- C6 (amended): the merge sequencer's transition rule — while playing
clip i, a position update `t` advances exactly when the clip has a *truthy*
trim boundary `e` (present and nonzero, by the source's JS-truthiness gate)
and `t ≥ e`; a clip whose `trimEndTime` is present but 0 never advances on
position updates (only on natural end); the media's natural-completion
signal (`onEnded`) always advances; advancing from the last clip ends the
sequence (`isMerging = false`, the `Done` state) and otherwise moves to
clip i+1 (remounted at position 0 by the keyed video element).  In
particular, on Scenario B's three clips (5.0, 3.0, 4.0 with only clip 1
trimmed to 1.5): starting the merge from the idle state loads the three
clips, clip 0 ignores every position update and advances on its natural end
at 5.0, clip 1 ignores updates before 1.5 and advances at 1.5, clip 2
ignores every update and its natural end at 4.0 reaches `Done`. -/
theorem C6_timeline_sequencer (q : List MediaItem) (i : Nat) (it : MediaItem)
    (e t : ℚ)
    (hq : q.get? i = some it) (he : it.trimEndTime = some e)
    (he0 : ¬ e = 0) (ht : e ≤ t) :
    (handleMergeTimeUpdate ⟨q, i, true⟩ t = playNextInQueue ⟨q, i, true⟩)
    ∧ (mergeStep ⟨q, i, true⟩ .ended = playNextInQueue ⟨q, i, true⟩)
    ∧ (i = q.length - 1 → playNextInQueue ⟨q, i, true⟩ = ⟨q, i, false⟩)
    ∧ (i < q.length - 1 → playNextInQueue ⟨q, i, true⟩ = ⟨q, i + 1, true⟩)
    ∧ (∀ (r : List MediaItem) (j : Nat) (z : MediaItem) (u : ℚ),
        r.get? j = some z → z.trimEndTime = some 0 →
        handleMergeTimeUpdate ⟨r, j, true⟩ u = ⟨r, j, true⟩)
    ∧ (handleMerge initialMergeState mergeQ = ⟨mergeQ, 0, true⟩)
    ∧ (∀ u : ℚ, handleMergeTimeUpdate ⟨mergeQ, 0, true⟩ u = ⟨mergeQ, 0, true⟩)
    ∧ (mergeStep ⟨mergeQ, 0, true⟩ .ended = ⟨mergeQ, 1, true⟩)
    ∧ (∀ u : ℚ, u < 3/2 →
        handleMergeTimeUpdate ⟨mergeQ, 1, true⟩ u = ⟨mergeQ, 1, true⟩)
    ∧ (handleMergeTimeUpdate ⟨mergeQ, 1, true⟩ (3/2) = ⟨mergeQ, 2, true⟩)
    ∧ (∀ u : ℚ, handleMergeTimeUpdate ⟨mergeQ, 2, true⟩ u = ⟨mergeQ, 2, true⟩)
    ∧ (mergeStep ⟨mergeQ, 2, true⟩ .ended = ⟨mergeQ, 2, false⟩) := by
  refine ⟨?_, rfl, ?_, ?_, ?_, rfl, fun u => rfl, rfl, ?_, ?_, fun u => rfl,
    rfl⟩
  · simp only [handleMergeTimeUpdate, hq, he]
    rw [if_pos ⟨he0, ht⟩]
  · intro h
    simp only [playNextInQueue]
    rw [if_neg (by omega)]
  · intro h
    simp only [playNextInQueue]
    rw [if_pos (by omega)]
  · intro r j z u hr hz
    simp only [handleMergeTimeUpdate, hr, hz]
    rw [if_neg (fun h => h.1 trivial)]
  · intro u hu
    show (if ¬ (3/2 : ℚ) = 0 ∧ (3/2 : ℚ) ≤ u
        then playNextInQueue ⟨mergeQ, 1, true⟩ else ⟨mergeQ, 1, true⟩)
      = ⟨mergeQ, 1, true⟩
    rw [if_neg (fun h => absurd h.2 (not_le.mpr hu))]
  · show (if ¬ (3/2 : ℚ) = 0 ∧ (3/2 : ℚ) ≤ (3/2 : ℚ)
        then playNextInQueue ⟨mergeQ, 1, true⟩ else ⟨mergeQ, 1, true⟩)
      = ⟨mergeQ, 2, true⟩
    rw [if_pos ⟨by norm_num, le_refl _⟩]
    rfl

/-- Witness for C6: clip 1 of Scenario B (trim boundary 1.5) at observed
position 2. -/
theorem C6_timeline_sequencer_witness :
    handleMergeTimeUpdate ⟨mergeQ, 1, true⟩ 2 = playNextInQueue ⟨mergeQ, 1, true⟩ :=
  (C6_timeline_sequencer mergeQ 1 clipB (3/2) 2 rfl rfl (by norm_num)
    (by norm_num)).1

end SessionCam
